import Mathlib

/-!
Verification of the kanji-mode QR encoding pipeline (Version 1, EC level L)
found in this repository.  The repository contains several near-duplicate
revisions of the same pipeline:

* an HTTP server revision (`src/main.go`, first part): handler
  `processKanjiHandler`, with its own `polyDiv` and pad-byte loop;
* a wasm revision (Go code embedded in `src/docs/index.html`): `processKanji`,
  with a different `polyDiv` and a different pad-byte loop;
* two revisions of the browser matrix builder (`src/docs/main.js` and the
  second revision inside `src/unnamed/part_000`): `placeStaticPatterns`,
  `placeFormatInformation`, `getQrDataPositions`.

Each Lean definition below is a direct shallow embedding of the corresponding
source function; machine integers are modelled as `Nat` with an explicit
`% 2 ^ w` where the source's fixed-width arithmetic could overflow.  Bit
strings of '0'/'1' characters are modelled as `List Nat` of 0/1 digits.
-/

/-! ### GF(256) tables (`initGF`, identical in all Go revisions)

The Go code builds `expTable`/`logTable` by 255 iterations of
`x <<= 1; if x&0x100 != 0 { x ^= 0x11D }`, finally forcing
`expTable[255] = 1`.  `initGFTables` is the direct embedding of that loop;
`expTable`/`logTable` are the resulting 256-entry tables written out as
literals so that kernel evaluation of the pipeline is feasible, and theorem
`initGF_gives_tables` (below, checked by the kernel) certifies that the
literals are exactly the tables the embedded loop produces. -/

/-- One `x` update of the `initGF` loop: `x <<= 1; if x&0x100 != 0 { x ^= 0x11D }`
(`0x11D` is `primitivePolynomial`). -/
def gfStep (x : Nat) : Nat :=
  let x2 := x <<< 1
  if x2 &&& 0x100 ≠ 0 then x2 ^^^ 0x11D else x2

/-- The `initGF` loop: at step `i` it performs `expTable[i] = x; logTable[x] = i`
and then updates `x`.  `steps` counts the remaining iterations. -/
def initGFAux : Nat → Nat → Nat → List Nat → List Nat → List Nat × List Nat
  | 0, _, _, e, l => (e, l)
  | steps + 1, i, x, e, l => initGFAux steps (i + 1) (gfStep x) (e.set i x) (l.set x i)

/-- `initGF`: run the loop for `i = 0 .. 254` starting from `x = 1` on
zero-initialised 256-entry tables, then set `expTable[255] = 1`. -/
def initGFTables : List Nat × List Nat :=
  let (e, l) := initGFAux 255 0 1 (List.replicate 256 0) (List.replicate 256 0)
  (e.set 255 1, l)

/-- The 256-entry exponent table produced by `initGF` (see `initGF_gives_tables`). -/
def expTable : List Nat :=
  [1, 2, 4, 8, 16, 32, 64, 128, 29, 58, 116, 232, 205, 135, 19, 38, 76, 152,
   45, 90, 180, 117, 234, 201, 143, 3, 6, 12, 24, 48, 96, 192, 157, 39, 78,
   156, 37, 74, 148, 53, 106, 212, 181, 119, 238, 193, 159, 35, 70, 140, 5,
   10, 20, 40, 80, 160, 93, 186, 105, 210, 185, 111, 222, 161, 95, 190, 97,
   194, 153, 47, 94, 188, 101, 202, 137, 15, 30, 60, 120, 240, 253, 231, 211,
   187, 107, 214, 177, 127, 254, 225, 223, 163, 91, 182, 113, 226, 217, 175,
   67, 134, 17, 34, 68, 136, 13, 26, 52, 104, 208, 189, 103, 206, 129, 31,
   62, 124, 248, 237, 199, 147, 59, 118, 236, 197, 151, 51, 102, 204, 133,
   23, 46, 92, 184, 109, 218, 169, 79, 158, 33, 66, 132, 21, 42, 84, 168, 77,
   154, 41, 82, 164, 85, 170, 73, 146, 57, 114, 228, 213, 183, 115, 230, 209,
   191, 99, 198, 145, 63, 126, 252, 229, 215, 179, 123, 246, 241, 255, 227,
   219, 171, 75, 150, 49, 98, 196, 149, 55, 110, 220, 165, 87, 174, 65, 130,
   25, 50, 100, 200, 141, 7, 14, 28, 56, 112, 224, 221, 167, 83, 166, 81,
   162, 89, 178, 121, 242, 249, 239, 195, 155, 43, 86, 172, 69, 138, 9, 18,
   36, 72, 144, 61, 122, 244, 245, 247, 243, 251, 235, 203, 139, 11, 22, 44,
   88, 176, 125, 250, 233, 207, 131, 27, 54, 108, 216, 173, 71, 142, 1]

/-- The 256-entry log table produced by `initGF` (see `initGF_gives_tables`). -/
def logTable : List Nat :=
  [0, 0, 1, 25, 2, 50, 26, 198, 3, 223, 51, 238, 27, 104, 199, 75, 4, 100,
   224, 14, 52, 141, 239, 129, 28, 193, 105, 248, 200, 8, 76, 113, 5, 138,
   101, 47, 225, 36, 15, 33, 53, 147, 142, 218, 240, 18, 130, 69, 29, 181,
   194, 125, 106, 39, 249, 185, 201, 154, 9, 120, 77, 228, 114, 166, 6, 191,
   139, 98, 102, 221, 48, 253, 226, 152, 37, 179, 16, 145, 34, 136, 54, 208,
   148, 206, 143, 150, 219, 189, 241, 210, 19, 92, 131, 56, 70, 64, 30, 66,
   182, 163, 195, 72, 126, 110, 107, 58, 40, 84, 250, 133, 186, 61, 202, 94,
   155, 159, 10, 21, 121, 43, 78, 212, 229, 172, 115, 243, 167, 87, 7, 112,
   192, 247, 140, 128, 99, 13, 103, 74, 222, 237, 49, 197, 254, 24, 227, 165,
   153, 119, 38, 184, 180, 124, 17, 68, 146, 217, 35, 32, 137, 46, 55, 63,
   209, 91, 149, 188, 207, 205, 144, 135, 151, 178, 220, 252, 190, 97, 242,
   86, 211, 171, 20, 42, 93, 158, 132, 60, 57, 83, 71, 109, 65, 162, 31, 45,
   67, 216, 183, 123, 164, 118, 196, 23, 73, 236, 127, 12, 111, 246, 108,
   161, 59, 82, 41, 157, 85, 170, 251, 96, 134, 177, 187, 204, 62, 90, 203,
   89, 95, 176, 156, 169, 160, 81, 11, 245, 22, 235, 122, 117, 44, 215, 79,
   174, 213, 233, 230, 231, 173, 232, 116, 214, 244, 234, 168, 80, 88, 175]

/-! ### Bit-string helpers

Go formats numbers with `fmt.Sprintf("%0Nb", v)`: the binary digits of `v`
(at least one digit), left-padded with zeros to width `N`; longer than `N`
when `v` needs more digits.  `goBin` models that; `bitsToNat` models
`strconv.ParseUint(s, 2, 8)` on a string of '0'/'1' digits. -/

/-- Little-endian binary digits of `v` (empty for 0), computed with explicit
fuel so that the recursion is structural; `fuel = v` always suffices since a
positive `v` has at most `v` binary digits. -/
def bitsLEAux : Nat → Nat → List Nat
  | 0, _ => []
  | fuel + 1, v => if v = 0 then [] else v % 2 :: bitsLEAux fuel (v / 2)

/-- Little-endian binary digits of `v` (empty for 0). -/
def bitsLE (v : Nat) : List Nat := bitsLEAux v v

/-- Go's `%0Nb` format of `v` as a digit list: the binary digits of `v`
(one digit `0` when `v = 0`), left-padded with zeros to width `w`. -/
def goBin (w v : Nat) : List Nat :=
  let ds := (bitsLE v).reverse
  let ds := if ds = [] then [0] else ds
  List.replicate (w - ds.length) 0 ++ ds

/-- Value of a most-significant-first digit list (`strconv.ParseUint(_, 2, _)`). -/
def bitsToNat (bits : List Nat) : Nat :=
  bits.foldl (fun a b => a * 2 + b) 0

/-- Structural-fuel version of the `bitStreamToBytes` loop; `fuel = s.length`
always suffices since every iteration drops 8 digits. -/
def bitStreamToBytesAux : Nat → List Nat → List Nat
  | 0, _ => []
  | fuel + 1, s => if s = [] then [] else bitsToNat (s.take 8) :: bitStreamToBytesAux fuel (s.drop 8)

/-- `bitStreamToBytes`: split the digit string into 8-digit groups and parse
each group as a byte (the Go call sites only pass strings whose length is a
multiple of 8). -/
def bitStreamToBytes (s : List Nat) : List Nat := bitStreamToBytesAux s.length s

/-! ### Kanji compression (`compressKanjiString`, identical in all Go revisions)

The input is modelled one character at a time: a `KChar` carries the
character's code point (`ch`, used only for error reporting, mirroring
`runes[runeIndex]`) and its 2-byte Shift-JIS code, `none` when the character
has no Shift-JIS representation.  `convertToShiftJIS` models the external
encoder `japanese.ShiftJIS.NewEncoder().Bytes`: it emits the two Shift-JIS
bytes of every character in order and fails (returns `none`) when some
character is not representable, in which case the Go code returns the
conversion-failure error without naming a character. -/

/-- One input character: its code point and its optional 2-byte Shift-JIS code. -/
structure KChar where
  ch : Nat
  sjis : Option Nat
deriving DecidableEq, Repr

/-- Errors of `compressKanjiString`: the wrapped encoder failure
("Shift-JISへの変換に失敗しました", which names no character), and the
range error ("'%s' (%04X) はサポート外のShift-JISコード範囲です", which names
the offending character and its code). -/
inductive CompressError where
  | convFail : CompressError
  | unsupportedRange (ch : Nat) (code : Nat) : CompressError
deriving DecidableEq, Repr

/-- Per-character compression record (`KanjiCompressionResult`); the string
fields of the Go struct are kept as the numbers they render. -/
structure KanjiCompressionResult where
  kanji : Nat
  shiftJISCode : Nat
  subtractedCode : Nat
  compressedValue : Nat
  binary13 : List Nat
deriving DecidableEq, Repr

/-- Model of the external Shift-JIS encoder: the concatenated 2-byte codes,
or `none` if some character has no representation. -/
def convertToShiftJIS : List KChar → Option (List Nat)
  | [] => some []
  | c :: rest =>
    match c.sjis, convertToShiftJIS rest with
    | some v, some bs => some (v / 256 :: v % 256 :: bs)
    | _, _ => none

/-- Build one `KanjiCompressionResult` from the rune, the Shift-JIS code and
the subtracted code: `upperByte := (sub >> 8) & 0xFF`, `lowerByte := sub & 0xFF`,
`compressedValue := uint16(upperByte)*0xC0 + lowerByte` (the `% 2^16` makes the
`uint16` arithmetic explicit), `Binary13Bit := %013b` of the value. -/
def mkResult (ch code sub : Nat) : KanjiCompressionResult :=
  let upperByte := (sub >>> 8) &&& 0xFF
  let lowerByte := sub &&& 0xFF
  let compressedValue := (upperByte * 0xC0 + lowerByte) % 65536
  { kanji := ch, shiftJISCode := code, subtractedCode := sub,
    compressedValue := compressedValue, binary13 := goBin 13 compressedValue }

/-- The loop of `compressKanjiString` over the Shift-JIS byte string: take two
bytes at a time (`break` when fewer than two remain), form
`shiftJISCode = b1<<8 | b2`, subtract `0x8140` in range `0x8140–0x9FFC`,
subtract `0xC140` in range `0xE040–0xEBBF`, otherwise abort with the range
error naming `runes[runeIndex]`. -/
def compressLoop : List Nat → List Nat → Except CompressError (List KanjiCompressionResult)
  | b1 :: b2 :: rest, runes =>
    let code := (b1 <<< 8) ||| b2
    let ch := runes.headD 0
    if 0x8140 ≤ code ∧ code ≤ 0x9FFC then
      (compressLoop rest runes.tail).map (mkResult ch code (code - 0x8140) :: ·)
    else if 0xE040 ≤ code ∧ code ≤ 0xEBBF then
      (compressLoop rest runes.tail).map (mkResult ch code (code - 0xC140) :: ·)
    else
      Except.error (CompressError.unsupportedRange ch code)
  | _, _ => Except.ok []

/-- `compressKanjiString`: convert to Shift-JIS (aborting with the conversion
error on failure), then run the two-bytes-at-a-time loop. -/
def compressKanjiString (cs : List KChar) : Except CompressError (List KanjiCompressionResult) :=
  match convertToShiftJIS cs with
  | none => Except.error CompressError.convFail
  | some bytes => compressLoop bytes (cs.map (·.ch))

/-- The range test of `compressKanjiString`, as a Boolean predicate on a
2-byte Shift-JIS code. -/
def supportedSjis (v : Nat) : Bool :=
  (0x8140 ≤ v && v ≤ 0x9FFC) || (0xE040 ≤ v && v ≤ 0xEBBF)

/-- A batch is fully supported when every character has a Shift-JIS code in
one of the two supported ranges. -/
def allSupported (cs : List KChar) : Bool :=
  cs.all fun c =>
    match c.sjis with
    | some v => supportedSjis v
    | none => false

/-- The first character of the batch (in input order) whose Shift-JIS code
falls outside both supported ranges, together with that code. -/
def firstUnsupported : List KChar → Option (Nat × Nat)
  | [] => none
  | c :: rest =>
    match c.sjis with
    | some v => if supportedSjis v then firstUnsupported rest else some (c.ch, v)
    | none => firstUnsupported rest

/-! ### GF(256) polynomial operations -/

/-- `gfMul`: 0 if either factor is 0, else `expTable[(logTable[a]+logTable[b])%255]`. -/
def gfMul (a b : Nat) : Nat :=
  if a = 0 ∨ b = 0 then 0
  else expTable.getD ((logTable.getD a 0 + logTable.getD b 0) % 255) 0

/-- `polyAdd`: coefficient-wise XOR up to the longer length (missing
coefficients read as 0). -/
def polyAdd (p1 p2 : List Nat) : List Nat :=
  (List.range (max p1.length p2.length)).map fun i => (p1.getD i 0) ^^^ (p2.getD i 0)

/-- `polyLeftShift`: multiply by `x^count` (prepend `count` zero coefficients;
index `i` is the coefficient of `x^i`). -/
def polyLeftShift (p : List Nat) (count : Nat) : List Nat :=
  List.replicate count 0 ++ p

/-- `polyDiv` of the HTTP revision (`src/main.go`): for `i` from
`len(result)-1` down to `len(divisor)-1`, with `coeff = result[i]`, XOR
`gfMul(expTable[(logTable[coeff]-logTable[d]+255)%255], d)` into `result[i-j]`
for `d = divisor[len-1-j]`, then return `result[:len(divisor)-1]`.  The Go
index expression is over `int`; since `logTable` values lie in `0..254` the
argument of `% 255` is positive, and it is written here with the `+ 255`
reassociated so that the `Nat` subtraction is exact. -/
def polyDivHTTP (dividend divisor : List Nat) : List Nat :=
  let dl := divisor.length
  let idxs := (List.range' (dl - 1) (dividend.length + 1 - dl)).reverse
  let result := idxs.foldl (fun result i =>
    let coeff := result.getD i 0
    if coeff = 0 then result
    else
      let logCoeff := logTable.getD coeff 0
      (List.range dl).foldl (fun result j =>
        let d := divisor.getD (dl - 1 - j) 0
        let term := gfMul (expTable.getD ((logCoeff + 255 - logTable.getD d 0) % 255) 0) d
        result.set (i - j) ((result.getD (i - j) 0) ^^^ term)) result) dividend
  result.take (dl - 1)

/-- `polyDiv` of the wasm revision (`src/docs/index.html`): for `i` from
`len(result)-len(divisor)` down to 0, with `coeff = result[i+len(divisor)-1]`,
XOR `gfMul(divisor[j], expTable[logTable[coeff]])` into `result[i+j]`, then
return `result[:len(divisor)-1]`. -/
def polyDivWasm (dividend divisor : List Nat) : List Nat :=
  let dl := divisor.length
  let idxs := (List.range (dividend.length + 1 - dl)).reverse
  let result := idxs.foldl (fun result i =>
    let coeff := result.getD (i + dl - 1) 0
    if coeff = 0 then result
    else
      let logCoeff := logTable.getD coeff 0
      (List.range dl).foldl (fun result j =>
        let term := gfMul (divisor.getD j 0) (expTable.getD logCoeff 0)
        result.set (i + j) ((result.getD (i + j) 0) ^^^ term)) result) dividend
  result.take (dl - 1)

/-- The fixed exponents of the generator polynomial coefficients. -/
def generatorPolyExponents : List Nat := [87, 229, 146, 149, 238, 102, 21]

/-- `getGeneratorPolynomial`: leading coefficient 1 at index `degree`, and
`coeffs[degree-1-i] = expTable[generatorPolyExponents[i]]`. -/
def getGeneratorPolynomial (degree : Nat) : List Nat :=
  let coeffs := (List.replicate (degree + 1) 0).set degree 1
  generatorPolyExponents.enum.foldl
    (fun coeffs ie => coeffs.set (degree - 1 - ie.1) (expTable.getD ie.2 0)) coeffs

/-- `intsToBytes`: Go's `byte(v)` truncation on every entry. -/
def intsToBytes (l : List Nat) : List Nat :=
  l.map (· % 256)

/-! ### The two pad-byte loops and the encoding pipelines

STEP 1-5 differs between the revisions: the HTTP revision picks the pad byte
by the parity of the current length (`0xEC` when `len(dataBytes)%2 == 1`,
`0x11` otherwise), the wasm revision cycles through `[]byte{0xEC, 0x11}`
starting at index 0. -/

/-- Structural-fuel version of the HTTP pad loop; every iteration appends one
byte and the loop stops at 19, so `fuel = 19` always suffices. -/
def padDataBytesHTTPAux : Nat → List Nat → List Nat
  | 0, dataBytes => dataBytes
  | fuel + 1, dataBytes =>
    if dataBytes.length < 19 then
      padDataBytesHTTPAux fuel (dataBytes ++ [if dataBytes.length % 2 = 1 then 0xEC else 0x11])
    else dataBytes

/-- The pad loop of the HTTP revision (`src/main.go`). -/
def padDataBytesHTTP (dataBytes : List Nat) : List Nat :=
  padDataBytesHTTPAux 19 dataBytes

/-- Structural-fuel version of the wasm pad loop. -/
def padDataBytesWasmAux : Nat → List Nat → Nat → List Nat
  | 0, dataBytes, _ => dataBytes
  | fuel + 1, dataBytes, paddingIndex =>
    if dataBytes.length < 19 then
      padDataBytesWasmAux fuel (dataBytes ++ [[0xEC, 0x11].getD paddingIndex 0])
        ((paddingIndex + 1) % 2)
    else dataBytes

/-- The pad loop of the wasm revision (`src/docs/index.html`):
`paddingBytes := []byte{0xEC, 0x11}`, `paddingIndex` starting at 0 and
cycling mod 2. -/
def padDataBytesWasm (dataBytes : List Nat) (paddingIndex : Nat) : List Nat :=
  padDataBytesWasmAux 19 dataBytes paddingIndex

/-- Top-level errors of the pipeline handlers. -/
inductive ProcessError where
  | emptyInput : ProcessError
  | tooManyChars : ProcessError
  | compressFailed (e : CompressError) : ProcessError
deriving DecidableEq, Repr

/-- The intermediate values the pipeline renders (`QRCodeIntermediateData`),
kept as digit/byte lists: `codeword` holds the bytes that `CodewordHex` and
`CodewordBinary` emit, in emission order. -/
structure EncodeResult where
  results : List KanjiCompressionResult
  initialBits : List Nat
  terminatedBits : List Nat
  paddedBits : List Nat
  dataBytes : List Nat
  remainder : List Nat
  codeword : List Nat
deriving DecidableEq, Repr

/-- The pipeline of the HTTP revision (`processKanjiHandler` in
`src/main.go`): STEP 1-1 compression, STEP 1-2/1-3 mode indicator `1000`,
`%08b` character count and unconditional `0000` terminator, STEP 1-4
zero-padding to a byte boundary, STEP 1-5 parity-based pad bytes, STEP 1-6
`polyDiv` (HTTP variant) of the 7-shifted data polynomial by the degree-7
generator, STEP 1-7 codeword bytes `intsToBytes(polyAdd(shifted, remainder))`. -/
def processHTTP (cs : List KChar) : Except ProcessError EncodeResult :=
  if cs.length = 0 then Except.error ProcessError.emptyInput
  else if 9 < cs.length then Except.error ProcessError.tooManyChars
  else
    match compressKanjiString cs with
    | Except.error e => Except.error (ProcessError.compressFailed e)
    | Except.ok results =>
      let binaryBuilder := (results.map (·.binary13)).flatten
      let modeIndicator := [1, 0, 0, 0]
      let charCountIndicator := goBin 8 cs.length
      let initialBitStream := modeIndicator ++ charCountIndicator ++ binaryBuilder
      let terminatedBitStream := initialBitStream ++ [0, 0, 0, 0]
      let paddedStream :=
        if terminatedBitStream.length % 8 ≠ 0 then
          terminatedBitStream ++ List.replicate (8 - terminatedBitStream.length % 8) 0
        else terminatedBitStream
      let dataBytes := padDataBytesHTTP (bitStreamToBytes paddedStream)
      let generatorPoly := getGeneratorPolynomial 7
      let remainderPoly := polyDivHTTP (polyLeftShift dataBytes 7) generatorPoly
      let codewordPoly := polyAdd (polyLeftShift dataBytes 7) remainderPoly
      Except.ok
        { results := results, initialBits := initialBitStream,
          terminatedBits := terminatedBitStream, paddedBits := paddedStream,
          dataBytes := dataBytes, remainder := remainderPoly,
          codeword := intsToBytes codewordPoly }

/-- The pipeline of the wasm revision (`processKanji` in
`src/docs/index.html`): identical to the HTTP revision except for the
cycling pad loop (STEP 1-5) and the wasm `polyDiv` (STEP 1-6). -/
def processWasm (cs : List KChar) : Except ProcessError EncodeResult :=
  if cs.length = 0 then Except.error ProcessError.emptyInput
  else if 9 < cs.length then Except.error ProcessError.tooManyChars
  else
    match compressKanjiString cs with
    | Except.error e => Except.error (ProcessError.compressFailed e)
    | Except.ok results =>
      let binaryBuilder := (results.map (·.binary13)).flatten
      let modeIndicator := [1, 0, 0, 0]
      let charCountIndicator := goBin 8 cs.length
      let initialBitStream := modeIndicator ++ charCountIndicator ++ binaryBuilder
      let terminatedBitStream := initialBitStream ++ [0, 0, 0, 0]
      let paddedStream :=
        if terminatedBitStream.length % 8 ≠ 0 then
          terminatedBitStream ++ List.replicate (8 - terminatedBitStream.length % 8) 0
        else terminatedBitStream
      let dataBytes := padDataBytesWasm (bitStreamToBytes paddedStream) 0
      let generatorPoly := getGeneratorPolynomial 7
      let remainderPoly := polyDivWasm (polyLeftShift dataBytes 7) generatorPoly
      let codewordPoly := polyAdd (polyLeftShift dataBytes 7) remainderPoly
      Except.ok
        { results := results, initialBits := initialBitStream,
          terminatedBits := terminatedBitStream, paddedBits := paddedStream,
          dataBytes := dataBytes, remainder := remainderPoly,
          codeword := intsToBytes codewordPoly }

/-! ### The standalone ECC stage (`applyEcc`) -/

/-- Error of the standalone ECC stage. -/
inductive EccError where
  | wrongLength : EccError
deriving DecidableEq, Repr

/-- Modelled from the spec: the wasm export `applyEcc` invoked by the
`eccForm` handler in `src/docs/main.js` is not among the Go revisions under
`src/`; per spec §4.4/§6 the stage takes externally supplied data codewords,
fails with "wrong length" if the input is not exactly 19 bytes, and otherwise
computes the 26-byte codeword with the degree-7 generator polynomial (the
repository's wasm `polyDiv`). -/
def applyEcc (dataBytes : List Nat) : Except EccError (List Nat) :=
  if dataBytes.length ≠ 19 then Except.error EccError.wrongLength
  else
    let generatorPoly := getGeneratorPolynomial 7
    let remainderPoly := polyDivWasm (polyLeftShift dataBytes 7) generatorPoly
    Except.ok (intsToBytes (polyAdd (polyLeftShift dataBytes 7) remainderPoly))

/-! ### Matrix builder (two revisions: `src/docs/main.js` and the second
revision in `src/unnamed/part_000`)

The 21×21 matrix of tri-state cells is a list of rows; a cell is
`none` for the JS `null` (unset) and `some b` for a written bit.  Since JS
distinguishes `null` (unset cell) from `undefined` (out-of-bounds read, which
does NOT compare `=== null`), the read helper `mcell` returns
`Option (Option Nat)`: `none` for out of bounds, `some none` for `null`. -/

/-- A 21×21 grid of tri-state cells. -/
abbrev QrMatrix := List (List (Option Nat))

/-- The all-`null` 21×21 matrix. -/
def emptyMatrix : QrMatrix := List.replicate 21 (List.replicate 21 none)

/-- Write bit `v` at row `r`, column `c` (all call sites stay in bounds). -/
def msetN (m : QrMatrix) (r c : Nat) (v : Nat) : QrMatrix :=
  m.set r ((m.getD r []).set c (some v))

/-- Read the cell at signed coordinates: `none` when out of bounds
(JS `undefined`), otherwise `some` of the tri-state cell. -/
def mcell (m : QrMatrix) (r c : Int) : Option (Option Nat) :=
  if 0 ≤ r ∧ r < 21 ∧ 0 ≤ c ∧ c < 21 then some ((m.getD r.toNat []).getD c.toNat none)
  else none

/-- `placeFinder(row, col)` (inside `placeStaticPatterns`, identical in both
revisions): for `r`, `c` from −1 to 7, guarded to the 21×21 bounds, write 1
on the finder pixels (`r`,`c` in 0..6 with ring/core condition) and 0
elsewhere (the separator). -/
def placeFinder (m : QrMatrix) (row col : Int) : QrMatrix :=
  (List.range 9).foldl (fun m ri =>
    (List.range 9).foldl (fun m ci =>
      let r : Int := (ri : Int) - 1
      let c : Int := (ci : Int) - 1
      if 0 ≤ row + r ∧ row + r < 21 ∧ 0 ≤ col + c ∧ col + c < 21 then
        if 0 ≤ r ∧ r < 7 ∧ 0 ≤ c ∧ c < 7 ∧
            (r = 0 ∨ r = 6 ∨ c = 0 ∨ c = 6 ∨ (1 < r ∧ r < 5 ∧ 1 < c ∧ c < 5)) then
          msetN m (row + r).toNat (col + c).toNat 1
        else
          msetN m (row + r).toNat (col + c).toNat 0
      else m) m) m

/-- `placeStaticPatterns` (identical in both revisions): three finder blocks
at (0,0), (0,14), (14,0); timing strips `matrix[6][i]` and `matrix[i][6]` for
`i` in 8..12 (`8 ≤ i < 21−8`), black on even `i`; dark module at (13,8). -/
def placeStaticPatterns (m : QrMatrix) : QrMatrix :=
  let m := placeFinder m 0 0
  let m := placeFinder m 0 (21 - 7)
  let m := placeFinder m (21 - 7) 0
  let m := (List.range' 8 5).foldl (fun m i =>
    let m := msetN m 6 i (if i % 2 = 0 then 1 else 0)
    msetN m i 6 (if i % 2 = 0 then 1 else 0)) m
  msetN m 13 8 1

/-- First format run of the `src/docs/main.js` revision: the 14 coordinates
listed in its `positions` array (module (8,8) is absent). -/
def formatPositionsDocs1 : List (Nat × Nat) :=
  [(8, 0), (8, 1), (8, 2), (8, 3), (8, 4), (8, 5), (8, 7),
   (7, 8), (5, 8), (4, 8), (3, 8), (2, 8), (1, 8), (0, 8)]

/-- Second format run of the `src/docs/main.js` revision (`positions2`,
written with `qrSize = 21`). -/
def formatPositionsDocs2 : List (Nat × Nat) :=
  [(21 - 1, 8), (21 - 2, 8), (21 - 3, 8), (21 - 4, 8), (21 - 5, 8), (21 - 6, 8), (21 - 7, 8),
   (8, 21 - 8), (8, 21 - 7), (8, 21 - 6), (8, 21 - 5), (8, 21 - 4), (8, 21 - 3), (8, 21 - 2),
   (8, 21 - 1)]

/-- The digit list of `"101010000010010"` (`formatBitsMasked` in
`src/docs/main.js`). -/
def formatBitsMasked : List Nat := [1, 0, 1, 0, 1, 0, 0, 0, 0, 0, 1, 0, 0, 1, 0]

/-- `placeFormatInformation` of the `src/docs/main.js` revision: write
`formatBits[bitIndex++]` along the 14 first-run coordinates, then write
`formatBits[i] ^ formatBitsMasked[i]` along the 15 second-run coordinates. -/
def placeFormatInformationDocs (m : QrMatrix) (formatBits : List Nat) : QrMatrix :=
  let m := formatPositionsDocs1.enum.foldl
    (fun m ip => msetN m ip.2.1 ip.2.2 (formatBits.getD ip.1 0)) m
  (List.range 15).foldl (fun m i =>
    let p := formatPositionsDocs2.getD i (0, 0)
    msetN m p.1 p.2 ((formatBits.getD i 0) ^^^ (formatBitsMasked.getD i 0))) m

/-- The digit list of `"111011110001001"` (`formatInfo` in
`generateFinalQrMatrix` of `src/docs/main.js`). -/
def formatInfoDocs : List Nat := [1, 1, 1, 0, 1, 1, 1, 1, 0, 0, 0, 1, 0, 0, 1]

/-- `generateFormatInformationBits(errorCorrectionLevel, maskPattern)` of the
`src/unnamed/part_000` revision: all run-time BCH computation is commented
out in the source; the function ignores both arguments and returns the digits
of the constant string `"111011110010100"`. -/
def generateFormatInformationBits (errorCorrectionLevel maskPattern : Nat) : List Nat :=
  [1, 1, 1, 0, 1, 1, 1, 1, 0, 0, 1, 0, 1, 0, 0]

/-- First format run of the `src/unnamed/part_000` revision (`positions1`,
15 coordinates, including (8,8)). -/
def formatPositionsPart1 : List (Nat × Nat) :=
  [(8, 0), (8, 1), (8, 2), (8, 3), (8, 4), (8, 5), (8, 7), (8, 8),
   (7, 8), (5, 8), (4, 8), (3, 8), (2, 8), (1, 8), (0, 8)]

/-- Second format run of the `src/unnamed/part_000` revision (`positions2`). -/
def formatPositionsPart2 : List (Nat × Nat) :=
  [(21 - 1, 8), (21 - 2, 8), (21 - 3, 8), (21 - 4, 8), (21 - 5, 8), (21 - 6, 8), (21 - 7, 8),
   (8, 21 - 8), (8, 21 - 7), (8, 21 - 6), (8, 21 - 5), (8, 21 - 4), (8, 21 - 3), (8, 21 - 2),
   (8, 21 - 1)]

/-- `placeFormatInformation` of the `src/unnamed/part_000` revision: the
passed `formatBits` argument is unused; `correctFormatBits =
generateFormatInformationBits(0, 3)` is written along `positions1` and again,
with the bit index reset, along `positions2`. -/
def placeFormatInformationPart (m : QrMatrix) (formatBits : List Nat) : QrMatrix :=
  let correctFormatBits := generateFormatInformationBits 0 3
  let m := formatPositionsPart1.enum.foldl
    (fun m ip => msetN m ip.2.1 ip.2.2 (correctFormatBits.getD ip.1 0)) m
  formatPositionsPart2.enum.foldl
    (fun m ip => msetN m ip.2.1 ip.2.2 (correctFormatBits.getD ip.1 0)) m

/-- One entry of the data-position index: 1-based sequence number, row,
column. -/
structure DataPos where
  num : Nat
  r : Nat
  c : Nat
deriving DecidableEq, Repr

/-- The column loop of `getQrDataPositions` in `src/docs/main.js`: `c` from
20 downward by 2 (with `if (c === 6) c--`), and for each column pair the
rows are scanned in the current direction, visiting the right column before
the left at every row; every cell that reads `null` is appended with the next
sequence number.  `fuel` bounds the loop (21 is more than the 10 iterations
the loop performs). -/
def colLoopDocs (fuel : Nat) (c : Int) (direction : Int) (m : QrMatrix)
    (st : List DataPos × Nat) : List DataPos × Nat :=
  match fuel with
  | 0 => st
  | fuel + 1 =>
    if c < 0 then st
    else
      let c := if c = 6 then c - 1 else c
      let st := (List.range 21).foldl (fun st rOffset =>
        let r : Int := if direction = -1 then 20 - (rOffset : Int) else (rOffset : Int)
        (List.range 2).foldl (fun st colOffset =>
          let currentCol := c - (colOffset : Int)
          if mcell m r currentCol = some none then
            (st.1 ++ [⟨st.2, r.toNat, currentCol.toNat⟩], st.2 + 1)
          else st) st) st
      colLoopDocs fuel (c - 2) (-direction) m st

/-- `getQrDataPositions` of the `src/docs/main.js` revision: scan the matrix
obtained from `placeStaticPatterns` and `placeFormatInformation` with 15 zero
format bits. -/
def getQrDataPositionsDocs : List DataPos :=
  let m := placeStaticPatterns emptyMatrix
  let m := placeFormatInformationDocs m (List.replicate 15 0)
  (colLoopDocs 21 (21 - 1) (-1) m ([], 1)).1

/-- The column loop of `getQrDataPositions` in the `src/unnamed/part_000`
revision: same column sequence, but within a pair the right column is scanned
top-to-bottom (resp. bottom-to-top) in full before the left column. -/
def colLoopPart (fuel : Nat) (c : Int) (direction : Int) (m : QrMatrix)
    (st : List DataPos × Nat) : List DataPos × Nat :=
  match fuel with
  | 0 => st
  | fuel + 1 =>
    if c < 0 then st
    else
      let c := if c = 6 then c - 1 else c
      let st := (List.range 2).foldl (fun st colOffset =>
        let currentCol := c - (colOffset : Int)
        (List.range 21).foldl (fun st rOffset =>
          let r : Int := if direction = -1 then 20 - (rOffset : Int) else (rOffset : Int)
          if mcell m r currentCol = some none then
            (st.1 ++ [⟨st.2, r.toNat, currentCol.toNat⟩], st.2 + 1)
          else st) st) st
      colLoopPart fuel (c - 2) (-direction) m st

/-- `getQrDataPositions` of the `src/unnamed/part_000` revision. -/
def getQrDataPositionsPart : List DataPos :=
  let m := placeStaticPatterns emptyMatrix
  let m := placeFormatInformationPart m (List.replicate 15 0)
  (colLoopPart 21 (21 - 1) (-1) m ([], 1)).1

/-! ## Theorems

General-purpose lemmas first, then one theorem (plus witness or
counterexample) per claim. -/

set_option maxRecDepth 10000 in
/-- The literal tables are exactly what the embedded `initGF` loop produces. -/
theorem initGF_gives_tables : initGFTables = (expTable, logTable) := by decide

/-- Bound on the digit count of the fuelled digit computation: for a value
below `2 ^ k` it produces at most `k` digits, whatever the fuel. -/
theorem bitsLEAux_length_le (fuel : Nat) : ∀ k v : Nat, v < 2 ^ k →
    (bitsLEAux fuel v).length ≤ k := by
  induction fuel with
  | zero =>
    intro k v _
    simp [bitsLEAux]
  | succ fuel ih =>
    intro k v hv
    rw [bitsLEAux]
    by_cases h0 : v = 0
    · simp [h0]
    · rw [if_neg h0]
      have hk : k ≠ 0 := by
        intro hk0
        rw [hk0] at hv
        omega
      have : v / 2 < 2 ^ (k - 1) := by
        have : 2 ^ k = 2 * 2 ^ (k - 1) := by
          conv_lhs => rw [show k = (k - 1) + 1 by omega]
          ring
        omega
      have := ih (k - 1) (v / 2) this
      simp
      omega

/-- Bound on the digit count: a value below `2 ^ k` has at most `k` binary digits. -/
theorem bitsLE_length_le (k : Nat) : ∀ v : Nat, v < 2 ^ k → (bitsLE v).length ≤ k :=
  fun v hv => bitsLEAux_length_le v k v hv

/-- All digits produced by the fuelled digit computation are binary. -/
theorem bitsLEAux_bits (fuel : Nat) : ∀ v : Nat, ∀ b ∈ bitsLEAux fuel v, b ≤ 1 := by
  induction fuel with
  | zero =>
    intro v b hb
    simp [bitsLEAux] at hb
  | succ fuel ih =>
    intro v b hb
    rw [bitsLEAux] at hb
    by_cases h0 : v = 0
    · simp [h0] at hb
    · rw [if_neg h0] at hb
      rcases List.mem_cons.mp hb with h | h
      · omega
      · exact ih (v / 2) b h

/-- All digits produced by `bitsLE` are binary. -/
theorem bitsLE_bits : ∀ v : Nat, ∀ b ∈ bitsLE v, b ≤ 1 :=
  fun v => bitsLEAux_bits v v

/-- Width of Go's `%0Nb` format: exactly `w` digits when the value fits in
`w` bits (and `w ≥ 1`). -/
theorem goBin_length (w v : Nat) (hw : 1 ≤ w) (hv : v < 2 ^ w) : (goBin w v).length = w := by
  have h1 : (bitsLE v).length ≤ w := bitsLE_length_le w v hv
  simp only [goBin]
  by_cases h : (bitsLE v).reverse = []
  · simp [h]
    omega
  · rw [if_neg h]
    simp
    omega

/-- All digits of a `%0Nb` format are binary. -/
theorem goBin_bits (w v : Nat) : ∀ b ∈ goBin w v, b ≤ 1 := by
  intro b hb
  unfold goBin at hb
  rcases List.mem_append.mp hb with h | h
  · have := List.eq_of_mem_replicate h
    omega
  · split at h
    · simp at h
      omega
    · exact bitsLE_bits v b (List.mem_reverse.mp h)

/-- Folding binary digits from accumulator `a` stays below `(a+1)·2^len`. -/
theorem bitsToNat_aux (bits : List Nat) : ∀ a : Nat, (∀ b ∈ bits, b ≤ 1) →
    List.foldl (fun a b => a * 2 + b) a bits < (a + 1) * 2 ^ bits.length := by
  induction bits with
  | nil =>
    intro a _
    simp
  | cons b bs ih =>
    intro a h
    have hb : b ≤ 1 := h b (by simp)
    have := ih (a * 2 + b) (fun x hx => h x (by simp [hx]))
    simp only [List.foldl_cons, List.length_cons]
    calc List.foldl (fun a b => a * 2 + b) (a * 2 + b) bs
        < (a * 2 + b + 1) * 2 ^ bs.length := this
      _ ≤ (a + 1) * 2 ^ (bs.length + 1) := by
          rw [pow_succ]
          nlinarith [Nat.pos_pow_of_pos bs.length (show 0 < 2 by norm_num)]

/-- A group of at most 8 binary digits parses to a byte value. -/
theorem bitsToNat_lt (bits : List Nat) (h : ∀ b ∈ bits, b ≤ 1) (h8 : bits.length ≤ 8) :
    bitsToNat bits < 256 := by
  have := bitsToNat_aux bits 0 h
  simp [bitsToNat] at this ⊢
  calc bits.foldl (fun a b => a * 2 + b) 0 < 2 ^ bits.length := by simpa using this
    _ ≤ 2 ^ 8 := Nat.pow_le_pow_right (by norm_num) h8
    _ = 256 := by norm_num

/-- The fuelled byte-grouping loop produces `⌈len/8⌉` bytes when the fuel
covers the string length. -/
theorem bitStreamToBytesAux_length (fuel : Nat) : ∀ s : List Nat, s.length ≤ fuel →
    (bitStreamToBytesAux fuel s).length = (s.length + 7) / 8 := by
  induction fuel with
  | zero =>
    intro s hs
    have : s = [] := List.length_eq_zero.mp (by omega)
    subst this
    simp [bitStreamToBytesAux]
  | succ fuel ih =>
    intro s hs
    rw [bitStreamToBytesAux]
    by_cases hne : s = []
    · simp [hne]
    · rw [if_neg hne, List.length_cons, ih (s.drop 8) (by simp; omega)]
      have : 0 < s.length := List.length_pos.mpr hne
      simp [List.length_drop]
      omega

/-- `bitStreamToBytes` produces `⌈len/8⌉` bytes. -/
theorem bitStreamToBytes_length (s : List Nat) :
    (bitStreamToBytes s).length = (s.length + 7) / 8 :=
  bitStreamToBytesAux_length s.length s (le_refl _)

/-- The fuelled byte-grouping loop of a binary digit string produces byte
values. -/
theorem bitStreamToBytesAux_lt (fuel : Nat) : ∀ s : List Nat, (∀ b ∈ s, b ≤ 1) →
    ∀ x ∈ bitStreamToBytesAux fuel s, x < 256 := by
  induction fuel with
  | zero =>
    intro s _ x hx
    simp [bitStreamToBytesAux] at hx
  | succ fuel ih =>
    intro s h x hx
    rw [bitStreamToBytesAux] at hx
    by_cases hne : s = []
    · simp [hne] at hx
    · rw [if_neg hne] at hx
      rcases List.mem_cons.mp hx with h1 | h1
      · subst h1
        exact bitsToNat_lt _ (fun b hb => h b (List.take_subset 8 s hb)) (by simp)
      · exact ih (s.drop 8) (fun b hb => h b (List.drop_subset 8 s hb)) x h1

/-- `bitStreamToBytes` of a binary digit string produces byte values. -/
theorem bitStreamToBytes_lt (s : List Nat) (h : ∀ b ∈ s, b ≤ 1) :
    ∀ x ∈ bitStreamToBytes s, x < 256 :=
  bitStreamToBytesAux_lt s.length s h

/-- Generic fold invariant. -/
theorem foldl_invariant {α β : Type} (P : α → Prop) (f : α → β → α) (l : List β) (a : α)
    (h0 : P a) (h : ∀ acc b, b ∈ l → P acc → P (f acc b)) : P (l.foldl f a) := by
  induction l generalizing a with
  | nil => exact h0
  | cons x xs ih =>
    exact ih (f a x) (h a x (by simp) h0) (fun acc b hb => h acc b (by simp [hb]))

/-- Reading a list of byte values always yields a byte value. -/
theorem getD_lt_of_all {l : List Nat} (h : ∀ x ∈ l, x < 256) (i : Nat) : l.getD i 0 < 256 := by
  by_cases hi : i < l.length
  · rw [List.getD_eq_getElem _ _ hi]
    exact h _ (List.getElem_mem hi)
  · rw [List.getD_eq_default _ _ (by omega)]
    norm_num

set_option maxRecDepth 4000 in
/-- Every `expTable` read yields a byte value. -/
theorem expTable_getD_lt (i : Nat) : expTable.getD i 0 < 256 :=
  getD_lt_of_all (by decide) i

/-- `gfMul` yields a byte value. -/
theorem gfMul_lt (a b : Nat) : gfMul a b < 256 := by
  unfold gfMul
  split
  · norm_num
  · exact expTable_getD_lt _

/-- XOR of two byte values is a byte value. -/
theorem xor_lt_256 {x y : Nat} (hx : x < 256) (hy : y < 256) : x ^^^ y < 256 := by
  have h8 : (256 : Nat) = 2 ^ 8 := by norm_num
  rw [h8] at hx hy ⊢
  exact Nat.xor_lt_two_pow hx hy

/-- Shape of the wasm `polyDiv` output: length `len(divisor) - 1` (for long
enough dividends) and byte-valued coefficients (for byte-valued dividends). -/
theorem polyDivWasm_spec (dividend divisor : List Nat) (hd : ∀ x ∈ dividend, x < 256) :
    (polyDivWasm dividend divisor).length = min (divisor.length - 1) dividend.length ∧
    ∀ x ∈ polyDivWasm dividend divisor, x < 256 := by
  unfold polyDivWasm
  set P : List Nat → Prop := fun res => res.length = dividend.length ∧ ∀ x ∈ res, x < 256 with hP
  have key : P ((List.range (dividend.length + 1 - divisor.length)).reverse.foldl (fun result i =>
      let coeff := result.getD (i + divisor.length - 1) 0
      if coeff = 0 then result
      else
        let logCoeff := logTable.getD coeff 0
        (List.range divisor.length).foldl (fun result j =>
          let term := gfMul (divisor.getD j 0) (expTable.getD logCoeff 0)
          result.set (i + j) ((result.getD (i + j) 0) ^^^ term)) result) dividend) := by
    apply foldl_invariant P _ _ _ ⟨rfl, hd⟩
    intro acc i _ hacc
    simp only
    split
    · exact hacc
    · apply foldl_invariant P _ _ _ hacc
      intro acc2 j _ hacc2
      refine ⟨by rw [List.length_set]; exact hacc2.1, ?_⟩
      intro x hx
      rcases List.mem_or_eq_of_mem_set hx with h1 | h1
      · exact hacc2.2 x h1
      · subst h1
        exact xor_lt_256 (getD_lt_of_all hacc2.2 _) (gfMul_lt _ _)
  constructor
  · rw [List.length_take, key.1]
  · intro x hx
    exact key.2 x (List.take_subset _ _ hx)

/-- Shape of the HTTP `polyDiv` output, as for `polyDivWasm_spec`. -/
theorem polyDivHTTP_spec (dividend divisor : List Nat) (hd : ∀ x ∈ dividend, x < 256) :
    (polyDivHTTP dividend divisor).length = min (divisor.length - 1) dividend.length ∧
    ∀ x ∈ polyDivHTTP dividend divisor, x < 256 := by
  unfold polyDivHTTP
  set P : List Nat → Prop := fun res => res.length = dividend.length ∧ ∀ x ∈ res, x < 256 with hP
  have key : P ((List.range' (divisor.length - 1) (dividend.length + 1 - divisor.length)).reverse.foldl
      (fun result i =>
      let coeff := result.getD i 0
      if coeff = 0 then result
      else
        let logCoeff := logTable.getD coeff 0
        (List.range divisor.length).foldl (fun result j =>
          let d := divisor.getD (divisor.length - 1 - j) 0
          let term := gfMul (expTable.getD ((logCoeff + 255 - logTable.getD d 0) % 255) 0) d
          result.set (i - j) ((result.getD (i - j) 0) ^^^ term)) result) dividend) := by
    apply foldl_invariant P _ _ _ ⟨rfl, hd⟩
    intro acc i _ hacc
    simp only
    split
    · exact hacc
    · apply foldl_invariant P _ _ _ hacc
      intro acc2 j _ hacc2
      refine ⟨by rw [List.length_set]; exact hacc2.1, ?_⟩
      intro x hx
      rcases List.mem_or_eq_of_mem_set hx with h1 | h1
      · exact hacc2.2 x h1
      · subst h1
        exact xor_lt_256 (getD_lt_of_all hacc2.2 _) (gfMul_lt _ _)
  constructor
  · rw [List.length_take, key.1]
  · intro x hx
    exact key.2 x (List.take_subset _ _ hx)

/-- STEP 1-7 in closed form: since `polyLeftShift` puts the data polynomial at
indices 7..25 and the remainder occupies indices 0..6, the XOR
`polyAdd (polyLeftShift d 7) r` is literally `r ++ d`. -/
theorem polyAdd_shift (d r : List Nat) (h : r.length = 7) :
    polyAdd (polyLeftShift d 7) r = r ++ d := by
  unfold polyAdd polyLeftShift
  have hmax : max (List.replicate 7 (0:Nat) ++ d).length r.length = 7 + d.length := by
    simp [h]
    omega
  apply List.ext_getElem
  · simp [hmax, h]
    omega
  · intro i h1 h2
    simp only [List.getElem_map, List.getElem_range]
    by_cases hi : i < 7
    · have e1 : (List.replicate 7 (0:Nat) ++ d).getD i 0 = 0 := by
        rw [List.getD_append _ _ _ _ (by simp; omega)]
        rw [List.getD_eq_getElem _ _ (by simp; omega)]
        interval_cases i <;> rfl
      have hir : i < r.length := by omega
      have e2 : r.getD i 0 = r[i] := List.getD_eq_getElem r 0 hir
      rw [e1, e2, Nat.zero_xor]
      rw [List.getElem_append_left (by omega)]
    · have hid : i - 7 < d.length := by simp at h2; omega
      have e1 : (List.replicate 7 (0:Nat) ++ d).getD i 0 = d[i - 7] := by
        rw [List.getD_append_right _ _ _ _ (by simp; omega)]
        simp only [List.length_replicate]
        exact List.getD_eq_getElem d 0 hid
      have e2 : r.getD i 0 = 0 := List.getD_eq_default r 0 (by omega)
      rw [e1, e2, Nat.xor_zero]
      rw [List.getElem_append_right (by omega)]
      simp [h]

/-- The fuelled HTTP pad loop stops exactly at 19 bytes when the fuel covers
the missing bytes. -/
theorem padDataBytesHTTPAux_length (fuel : Nat) : ∀ bs : List Nat, 19 ≤ bs.length + fuel →
    (padDataBytesHTTPAux fuel bs).length = max bs.length 19 := by
  induction fuel with
  | zero =>
    intro bs hb
    rw [padDataBytesHTTPAux]
    omega
  | succ fuel ih =>
    intro bs hb
    rw [padDataBytesHTTPAux]
    by_cases h : bs.length < 19
    · rw [if_pos h, ih _ (by simp; omega)]
      simp
      omega
    · rw [if_neg h]
      omega

/-- The HTTP pad loop stops exactly at 19 bytes (or leaves longer inputs alone). -/
theorem padDataBytesHTTP_length (bs : List Nat) :
    (padDataBytesHTTP bs).length = max bs.length 19 :=
  padDataBytesHTTPAux_length 19 bs (by omega)

/-- The fuelled HTTP pad loop appends only byte values. -/
theorem padDataBytesHTTPAux_lt (fuel : Nat) : ∀ bs : List Nat, (∀ x ∈ bs, x < 256) →
    ∀ x ∈ padDataBytesHTTPAux fuel bs, x < 256 := by
  induction fuel with
  | zero =>
    intro bs h
    exact h
  | succ fuel ih =>
    intro bs h
    rw [padDataBytesHTTPAux]
    by_cases hl : bs.length < 19
    · rw [if_pos hl]
      apply ih
      intro x hx
      rcases List.mem_append.mp hx with h1 | h2
      · exact h x h1
      · simp at h2
        split at h2 <;> omega
    · rw [if_neg hl]
      exact h

/-- The HTTP pad loop appends only byte values. -/
theorem padDataBytesHTTP_lt (bs : List Nat) (h : ∀ x ∈ bs, x < 256) :
    ∀ x ∈ padDataBytesHTTP bs, x < 256 :=
  padDataBytesHTTPAux_lt 19 bs h

/-- The fuelled wasm pad loop stops exactly at 19 bytes when the fuel covers
the missing bytes. -/
theorem padDataBytesWasmAux_length (fuel : Nat) : ∀ (bs : List Nat) (idx : Nat),
    19 ≤ bs.length + fuel →
    (padDataBytesWasmAux fuel bs idx).length = max bs.length 19 := by
  induction fuel with
  | zero =>
    intro bs idx hb
    rw [padDataBytesWasmAux]
    omega
  | succ fuel ih =>
    intro bs idx hb
    rw [padDataBytesWasmAux]
    by_cases h : bs.length < 19
    · rw [if_pos h, ih _ _ (by simp; omega)]
      simp
      omega
    · rw [if_neg h]
      omega

/-- The wasm pad loop stops exactly at 19 bytes (or leaves longer inputs alone). -/
theorem padDataBytesWasm_length (bs : List Nat) (idx : Nat) :
    (padDataBytesWasm bs idx).length = max bs.length 19 :=
  padDataBytesWasmAux_length 19 bs idx (by omega)

/-- The fuelled wasm pad loop appends only byte values. -/
theorem padDataBytesWasmAux_lt (fuel : Nat) : ∀ (bs : List Nat) (idx : Nat),
    (∀ x ∈ bs, x < 256) → ∀ x ∈ padDataBytesWasmAux fuel bs idx, x < 256 := by
  induction fuel with
  | zero =>
    intro bs idx h
    exact h
  | succ fuel ih =>
    intro bs idx h
    rw [padDataBytesWasmAux]
    by_cases hl : bs.length < 19
    · rw [if_pos hl]
      apply ih
      intro x hx
      rcases List.mem_append.mp hx with h1 | h2
      · exact h x h1
      · rw [List.eq_of_mem_singleton h2]
        exact getD_lt_of_all (by decide) idx
    · rw [if_neg hl]
      exact h

/-- The wasm pad loop appends only byte values. -/
theorem padDataBytesWasm_lt (bs : List Nat) (idx : Nat) (h : ∀ x ∈ bs, x < 256) :
    ∀ x ∈ padDataBytesWasm bs idx, x < 256 :=
  padDataBytesWasmAux_lt 19 bs idx h

/-- Go's `byte(v)` truncation is the identity on byte values. -/
theorem intsToBytes_eq_self (l : List Nat) (h : ∀ x ∈ l, x < 256) : intsToBytes l = l := by
  unfold intsToBytes
  conv_rhs => rw [← List.map_id l]
  exact List.map_congr_left fun x hx => Nat.mod_eq_of_lt (h x hx)

/-- Recombining a high byte shifted left with a low byte below 256. -/
theorem shiftLeft8_or (b1 b2 : Nat) (h : b2 < 256) : (b1 <<< 8) ||| b2 = b1 * 256 + b2 := by
  have h2 : b2 < 2 ^ 8 := by omega
  rw [Nat.shiftLeft_eq]
  calc b1 * 2 ^ 8 ||| b2 = 2 ^ 8 * b1 ||| b2 := by rw [Nat.mul_comm]
    _ = 2 ^ 8 * b1 + b2 := (Nat.mul_add_lt_is_or h2 b1).symm
    _ = b1 * 256 + b2 := by rw [Nat.mul_comm]

/-- `uint16(bytes[i])<<8 | uint16(bytes[i+1])` recovers the code the modelled
encoder split into two bytes. -/
theorem code_roundtrip (v : Nat) : ((v / 256) <<< 8) ||| (v % 256) = v := by
  rw [shiftLeft8_or _ _ (Nat.mod_lt v (by norm_num))]
  omega

/-- Compressed value bound: for subtracted codes up to `0x2A7F` (the largest
value either supported range produces), `upper*0xC0 + lower < 8192`. -/
theorem mkResult_value_lt (ch code sub : Nat) (h : sub ≤ 0x2A7F) :
    (mkResult ch code sub).compressedValue < 8192 := by
  simp only [mkResult]
  have e0 : sub >>> 8 = sub / 256 := by
    rw [Nat.shiftRight_eq_div_pow]
  have e1 : ∀ x : Nat, x &&& 255 = x % 256 := by
    intro x
    have := Nat.and_pow_two_sub_one_eq_mod x 8
    norm_num at this
    exact this
  rw [e0, e1, e1]
  have hc : sub / 256 % 256 = sub / 256 := Nat.mod_eq_of_lt (by omega)
  rw [hc]
  have hv : sub / 256 * 192 + sub % 256 < 8192 := by omega
  rw [Nat.mod_eq_of_lt (by omega)]
  exact hv

/-- The 13-bit field of a supported character really is 13 digits long. -/
theorem mkResult_binary13_length (ch code sub : Nat) (h : sub ≤ 0x2A7F) :
    (mkResult ch code sub).binary13.length = 13 := by
  have hv := mkResult_value_lt ch code sub h
  have : (mkResult ch code sub).binary13 = goBin 13 (mkResult ch code sub).compressedValue := rfl
  rw [this]
  exact goBin_length 13 _ (by norm_num) (by norm_num; omega)

/-- The 13-bit fields of a supported character consist of binary digits. -/
theorem mkResult_binary13_bits (ch code sub : Nat) :
    ∀ b ∈ (mkResult ch code sub).binary13, b ≤ 1 :=
  goBin_bits 13 _

/-- Length of the concatenation of the per-character 13-bit fields. -/
theorem flatten_binary13_length (rs : List KanjiCompressionResult)
    (h : ∀ r ∈ rs, r.binary13.length = 13) :
    ((rs.map (·.binary13)).flatten).length = 13 * rs.length := by
  induction rs with
  | nil => simp
  | cons r rest ih =>
    simp only [List.map_cons, List.flatten_cons, List.length_append, List.length_cons]
    rw [h r (by simp), ih (fun x hx => h x (by simp [hx]))]
    ring

/-- A supported code lies below `0xEBBF`, hence fits in two bytes. -/
theorem supportedSjis_le (v : Nat) (h : supportedSjis v = true) : v ≤ 0xEBBF := by
  simp [supportedSjis] at h
  omega

/-- Unfolding `allSupported` on a cons cell. -/
theorem allSupported_cons {c : KChar} {rest : List KChar}
    (h : allSupported (c :: rest) = true) :
    (∃ v, c.sjis = some v ∧ supportedSjis v = true) ∧ allSupported rest = true := by
  simp only [allSupported, List.all_cons, Bool.and_eq_true] at h
  obtain ⟨h1, h2⟩ := h
  refine ⟨?_, h2⟩
  cases hs : c.sjis with
  | none => rw [hs] at h1; simp at h1
  | some v => rw [hs] at h1; exact ⟨v, rfl, h1⟩

/-- The modelled encoder succeeds on a fully supported batch. -/
theorem convertToShiftJIS_ok (cs : List KChar) (h : allSupported cs = true) :
    ∃ bs, convertToShiftJIS cs = some bs := by
  induction cs with
  | nil => exact ⟨[], rfl⟩
  | cons c rest ih =>
    obtain ⟨⟨v, hv, _⟩, hrest⟩ := allSupported_cons h
    obtain ⟨bs', hbs'⟩ := ih hrest
    exact ⟨v / 256 :: v % 256 :: bs', by rw [convertToShiftJIS, hv, hbs']⟩

/-- Running the compression loop over the encoder output of a fully supported
batch: one `KanjiCompressionResult` per character, in order, each with a
13-digit binary field. -/
theorem compressLoop_ok (cs : List KChar) (h : allSupported cs = true) :
    ∀ bs, convertToShiftJIS cs = some bs →
    ∃ rs, compressLoop bs (cs.map (·.ch)) = Except.ok rs ∧ rs.length = cs.length ∧
      ∀ r ∈ rs, r.binary13.length = 13 ∧ ∀ b ∈ r.binary13, b ≤ 1 := by
  induction cs with
  | nil =>
    intro bs hbs
    simp [convertToShiftJIS] at hbs
    subst hbs
    exact ⟨[], rfl, rfl, by simp⟩
  | cons c rest ih =>
    intro bs hbs
    obtain ⟨⟨v, hv, hsup⟩, hrest'⟩ := allSupported_cons h
    obtain ⟨bs', hbs'⟩ := convertToShiftJIS_ok rest hrest'
    rw [convertToShiftJIS, hv, hbs'] at hbs
    have hbs2 : bs = v / 256 :: v % 256 :: bs' := by
      simpa using hbs.symm
    subst hbs2
    obtain ⟨rs', hloop, hlen, hprops⟩ := ih hrest' bs' hbs'
    have hcode : ((v / 256) <<< 8) ||| (v % 256) = v := code_roundtrip v
    have hv255 : v ≤ 0xEBBF := supportedSjis_le v hsup
    simp only [supportedSjis, Bool.or_eq_true, Bool.and_eq_true, decide_eq_true_eq] at hsup
    rcases hsup with ⟨ha, hb⟩ | ⟨ha, hb⟩
    · refine ⟨mkResult c.ch v (v - 0x8140) :: rs', ?_, by simp [hlen], ?_⟩
      · rw [compressLoop]
        simp only [hcode, List.headD_cons, List.tail_cons, List.map_cons]
        rw [if_pos ⟨ha, hb⟩, hloop]
        rfl
      · intro r hr
        rcases List.mem_cons.mp hr with h1 | h1
        · subst h1
          exact ⟨mkResult_binary13_length _ _ _ (by omega), mkResult_binary13_bits _ _ _⟩
        · exact hprops r h1
    · refine ⟨mkResult c.ch v (v - 0xC140) :: rs', ?_, by simp [hlen], ?_⟩
      · rw [compressLoop]
        simp only [hcode, List.headD_cons, List.tail_cons, List.map_cons]
        rw [if_neg (by omega), if_pos ⟨ha, hb⟩, hloop]
        rfl
      · intro r hr
        rcases List.mem_cons.mp hr with h1 | h1
        · subst h1
          exact ⟨mkResult_binary13_length _ _ _ (by omega), mkResult_binary13_bits _ _ _⟩
        · exact hprops r h1

/-- `compressKanjiString` succeeds on a fully supported batch. -/
theorem compressKanjiString_ok (cs : List KChar) (h : allSupported cs = true) :
    ∃ rs, compressKanjiString cs = Except.ok rs ∧ rs.length = cs.length ∧
      ∀ r ∈ rs, r.binary13.length = 13 ∧ ∀ b ∈ r.binary13, b ≤ 1 := by
  obtain ⟨bs, hbs⟩ := convertToShiftJIS_ok cs h
  obtain ⟨rs, hloop, hlen, hprops⟩ := compressLoop_ok cs h bs hbs
  exact ⟨rs, by rw [compressKanjiString, hbs]; exact hloop, hlen, hprops⟩

set_option maxHeartbeats 1600000 in
/-- The wasm pipeline on a valid, fully supported batch: it succeeds, the
terminator is appended to the assembled stream, the data codewords are
exactly 19 bytes, the remainder exactly 7 bytes, and the emitted codeword
bytes are the remainder bytes followed by the data bytes. -/
theorem processWasm_ok (cs : List KChar) (h1 : cs.length ≠ 0) (h2 : cs.length ≤ 9)
    (h3 : allSupported cs = true) :
    ∃ s, processWasm cs = Except.ok s ∧
      s.initialBits.length = 12 + 13 * cs.length ∧
      s.terminatedBits = s.initialBits ++ [0, 0, 0, 0] ∧
      s.dataBytes.length = 19 ∧
      s.remainder.length = 7 ∧
      s.codeword = s.remainder ++ s.dataBytes := by
  obtain ⟨rs, hcomp, hlen, hprops⟩ := compressKanjiString_ok cs h3
  have hn9 : ¬ 9 < cs.length := by omega
  unfold processWasm
  rw [if_neg h1, if_neg hn9, hcomp]
  simp only
  set builder := (rs.map (·.binary13)).flatten with hbuilder
  have hblen : builder.length = 13 * cs.length := by
    rw [hbuilder, flatten_binary13_length rs (fun r hr => (hprops r hr).1), hlen]
  have hbbits : ∀ b ∈ builder, b ≤ 1 := by
    intro b hb
    rw [hbuilder] at hb
    obtain ⟨l, hl, hbl⟩ := List.mem_flatten.mp hb
    obtain ⟨r, hr, hrl⟩ := List.mem_map.mp hl
    exact (hprops r hr).2 b (hrl ▸ hbl)
  set cci := goBin 8 cs.length with hcci
  have hccilen : cci.length = 8 :=
    goBin_length 8 cs.length (by norm_num) (by norm_num; omega)
  set initial := [1, 0, 0, 0] ++ cci ++ builder with hinitial
  have hinitlen : initial.length = 12 + 13 * cs.length := by
    rw [hinitial]
    simp [hccilen, hblen]
    omega
  have hinitbits : ∀ b ∈ initial, b ≤ 1 := by
    intro b hb
    rw [hinitial] at hb
    rcases List.mem_append.mp hb with hb1 | hb2
    · rcases List.mem_append.mp hb1 with hb3 | hb4
      · simp at hb3
        omega
      · exact goBin_bits 8 cs.length b hb4
    · exact hbbits b hb2
  set term := initial ++ [0, 0, 0, 0] with hterm
  have htermlen : term.length = 16 + 13 * cs.length := by
    rw [hterm]
    simp [hinitlen]
    omega
  have htermbits : ∀ b ∈ term, b ≤ 1 := by
    intro b hb
    rcases List.mem_append.mp hb with hb1 | hb2
    · exact hinitbits b hb1
    · simp at hb2
      omega
  set padded := if term.length % 8 ≠ 0 then term ++ List.replicate (8 - term.length % 8) 0
    else term with hpadded
  have hpadlen : padded.length ≤ 140 := by
    rw [hpadded]
    split
    · simp
      omega
    · omega
  have hpadbits : ∀ b ∈ padded, b ≤ 1 := by
    intro b hb
    rw [hpadded] at hb
    split at hb
    · rcases List.mem_append.mp hb with hb1 | hb2
      · exact htermbits b hb1
      · have := List.eq_of_mem_replicate hb2
        omega
    · exact htermbits b hb
  set db := padDataBytesWasm (bitStreamToBytes padded) 0 with hdb
  have hdblen : db.length = 19 := by
    rw [hdb, padDataBytesWasm_length, bitStreamToBytes_length]
    omega
  have hdblt : ∀ x ∈ db, x < 256 := by
    rw [hdb]
    exact padDataBytesWasm_lt _ _ (bitStreamToBytes_lt padded hpadbits)
  set dividend := polyLeftShift db 7 with hdividend
  have hdivlt : ∀ x ∈ dividend, x < 256 := by
    intro x hx
    rw [hdividend] at hx
    rcases List.mem_append.mp hx with hx1 | hx2
    · have := List.eq_of_mem_replicate hx1
      omega
    · exact hdblt x hx2
  have hgen : (getGeneratorPolynomial 7).length = 8 := by decide
  set rem := polyDivWasm dividend (getGeneratorPolynomial 7) with hrem
  have hremspec := polyDivWasm_spec dividend (getGeneratorPolynomial 7) hdivlt
  have hremlen : rem.length = 7 := by
    rw [hrem, hremspec.1, hgen]
    have : dividend.length = db.length + 7 := by
      rw [hdividend]
      simp [polyLeftShift]
    omega
  have hremlt : ∀ x ∈ rem, x < 256 := by
    rw [hrem]
    exact hremspec.2
  clear_value rem dividend db padded term initial cci builder
  refine ⟨_, rfl, ?_, ?_, ?_, ?_, ?_⟩
  · exact hinitlen
  · exact hterm
  · exact hdblen
  · exact hremlen
  · show intsToBytes (polyAdd dividend rem) = rem ++ db
    rw [hdividend, polyAdd_shift db rem hremlen]
    apply intsToBytes_eq_self
    intro x hx
    rcases List.mem_append.mp hx with hx1 | hx2
    · exact hremlt x hx1
    · exact hdblt x hx2

set_option maxHeartbeats 1600000 in
/-- The HTTP pipeline on a valid, fully supported batch: same shape facts as
`processWasm_ok` (the two revisions differ in the pad bytes and the division
algorithm, not in these shape properties). -/
theorem processHTTP_ok (cs : List KChar) (h1 : cs.length ≠ 0) (h2 : cs.length ≤ 9)
    (h3 : allSupported cs = true) :
    ∃ s, processHTTP cs = Except.ok s ∧
      s.initialBits.length = 12 + 13 * cs.length ∧
      s.terminatedBits = s.initialBits ++ [0, 0, 0, 0] ∧
      s.dataBytes.length = 19 ∧
      s.remainder.length = 7 ∧
      s.codeword = s.remainder ++ s.dataBytes := by
  obtain ⟨rs, hcomp, hlen, hprops⟩ := compressKanjiString_ok cs h3
  have hn9 : ¬ 9 < cs.length := by omega
  unfold processHTTP
  rw [if_neg h1, if_neg hn9, hcomp]
  simp only
  set builder := (rs.map (·.binary13)).flatten with hbuilder
  have hblen : builder.length = 13 * cs.length := by
    rw [hbuilder, flatten_binary13_length rs (fun r hr => (hprops r hr).1), hlen]
  have hbbits : ∀ b ∈ builder, b ≤ 1 := by
    intro b hb
    rw [hbuilder] at hb
    obtain ⟨l, hl, hbl⟩ := List.mem_flatten.mp hb
    obtain ⟨r, hr, hrl⟩ := List.mem_map.mp hl
    exact (hprops r hr).2 b (hrl ▸ hbl)
  set cci := goBin 8 cs.length with hcci
  have hccilen : cci.length = 8 :=
    goBin_length 8 cs.length (by norm_num) (by norm_num; omega)
  set initial := [1, 0, 0, 0] ++ cci ++ builder with hinitial
  have hinitlen : initial.length = 12 + 13 * cs.length := by
    rw [hinitial]
    simp [hccilen, hblen]
    omega
  have hinitbits : ∀ b ∈ initial, b ≤ 1 := by
    intro b hb
    rw [hinitial] at hb
    rcases List.mem_append.mp hb with hb1 | hb2
    · rcases List.mem_append.mp hb1 with hb3 | hb4
      · simp at hb3
        omega
      · exact goBin_bits 8 cs.length b hb4
    · exact hbbits b hb2
  set term := initial ++ [0, 0, 0, 0] with hterm
  have htermlen : term.length = 16 + 13 * cs.length := by
    rw [hterm]
    simp [hinitlen]
    omega
  have htermbits : ∀ b ∈ term, b ≤ 1 := by
    intro b hb
    rcases List.mem_append.mp hb with hb1 | hb2
    · exact hinitbits b hb1
    · simp at hb2
      omega
  set padded := if term.length % 8 ≠ 0 then term ++ List.replicate (8 - term.length % 8) 0
    else term with hpadded
  have hpadlen : padded.length ≤ 140 := by
    rw [hpadded]
    split
    · simp
      omega
    · omega
  have hpadbits : ∀ b ∈ padded, b ≤ 1 := by
    intro b hb
    rw [hpadded] at hb
    split at hb
    · rcases List.mem_append.mp hb with hb1 | hb2
      · exact htermbits b hb1
      · have := List.eq_of_mem_replicate hb2
        omega
    · exact htermbits b hb
  set db := padDataBytesHTTP (bitStreamToBytes padded) with hdb
  have hdblen : db.length = 19 := by
    rw [hdb, padDataBytesHTTP_length, bitStreamToBytes_length]
    omega
  have hdblt : ∀ x ∈ db, x < 256 := by
    rw [hdb]
    exact padDataBytesHTTP_lt _ (bitStreamToBytes_lt padded hpadbits)
  set dividend := polyLeftShift db 7 with hdividend
  have hdivlt : ∀ x ∈ dividend, x < 256 := by
    intro x hx
    rw [hdividend] at hx
    rcases List.mem_append.mp hx with hx1 | hx2
    · have := List.eq_of_mem_replicate hx1
      omega
    · exact hdblt x hx2
  have hgen : (getGeneratorPolynomial 7).length = 8 := by decide
  set rem := polyDivHTTP dividend (getGeneratorPolynomial 7) with hrem
  have hremspec := polyDivHTTP_spec dividend (getGeneratorPolynomial 7) hdivlt
  have hremlen : rem.length = 7 := by
    rw [hrem, hremspec.1, hgen]
    have : dividend.length = db.length + 7 := by
      rw [hdividend]
      simp [polyLeftShift]
    omega
  have hremlt : ∀ x ∈ rem, x < 256 := by
    rw [hrem]
    exact hremspec.2
  clear_value rem dividend db padded term initial cci builder
  refine ⟨_, rfl, ?_, ?_, ?_, ?_, ?_⟩
  · exact hinitlen
  · exact hterm
  · exact hdblen
  · exact hremlen
  · show intsToBytes (polyAdd dividend rem) = rem ++ db
    rw [hdividend, polyAdd_shift db rem hremlen]
    apply intsToBytes_eq_self
    intro x hx
    rcases List.mem_append.mp hx with hx1 | hx2
    · exact hremlt x hx1
    · exact hdblt x hx2

/-- The modelled encoder fails as soon as one character has no Shift-JIS
representation. -/
theorem convertToShiftJIS_none (cs : List KChar) (h : ∃ c ∈ cs, c.sjis = none) :
    convertToShiftJIS cs = none := by
  induction cs with
  | nil => simp at h
  | cons c rest ih =>
    obtain ⟨c', hc', hnone⟩ := h
    rcases List.mem_cons.mp hc' with h1 | h1
    · subst h1
      rw [convertToShiftJIS, hnone]
    · rw [convertToShiftJIS, ih ⟨c', h1, hnone⟩]
      cases c.sjis <;> rfl

/-- When every character has a representation, the modelled encoder succeeds. -/
theorem convertToShiftJIS_isSome (cs : List KChar) (h : ∀ c ∈ cs, c.sjis.isSome) :
    ∃ bs, convertToShiftJIS cs = some bs := by
  induction cs with
  | nil => exact ⟨[], rfl⟩
  | cons c rest ih =>
    obtain ⟨v, hv⟩ := Option.isSome_iff_exists.mp (h c (by simp))
    obtain ⟨bs', hbs'⟩ := ih (fun c' hc' => h c' (by simp [hc']))
    exact ⟨v / 256 :: v % 256 :: bs', by rw [convertToShiftJIS, hv, hbs']⟩

/-- The compression loop reports the first out-of-range code, naming the
corresponding character. -/
theorem compressLoop_firstUnsupported (cs : List KChar) :
    (∀ c ∈ cs, c.sjis.isSome) →
    ∀ bs, convertToShiftJIS cs = some bs →
    ∀ ch v, firstUnsupported cs = some (ch, v) →
    compressLoop bs (cs.map (·.ch)) = Except.error (CompressError.unsupportedRange ch v) := by
  induction cs with
  | nil =>
    intro _ bs _ ch v hfu
    simp [firstUnsupported] at hfu
  | cons c rest ih =>
    intro hall bs hbs ch v hfu
    obtain ⟨w, hw⟩ := Option.isSome_iff_exists.mp (hall c (by simp))
    have hallrest : ∀ c' ∈ rest, c'.sjis.isSome := fun c' hc' => hall c' (by simp [hc'])
    obtain ⟨bs', hbs'⟩ := convertToShiftJIS_isSome rest hallrest
    rw [convertToShiftJIS, hw, hbs'] at hbs
    have hbs2 : bs = w / 256 :: w % 256 :: bs' := by simpa using hbs.symm
    subst hbs2
    rw [firstUnsupported, hw] at hfu
    have hfu2 : (if supportedSjis w = true then firstUnsupported rest
        else some (c.ch, w)) = some (ch, v) := hfu
    have hcode : ((w / 256) <<< 8) ||| (w % 256) = w := code_roundtrip w
    by_cases hsup : supportedSjis w = true
    · rw [if_pos hsup] at hfu2
      have hloop := ih hallrest bs' hbs' ch v hfu2
      simp only [supportedSjis, Bool.or_eq_true, Bool.and_eq_true, decide_eq_true_eq] at hsup
      rw [compressLoop]
      simp only [hcode, List.headD_cons, List.tail_cons, List.map_cons]
      rcases hsup with ⟨ha, hb⟩ | ⟨ha, hb⟩
      · rw [if_pos ⟨ha, hb⟩, hloop]
        rfl
      · rw [if_neg (by omega), if_pos ⟨ha, hb⟩, hloop]
        rfl
    · rw [if_neg hsup] at hfu2
      have hfu' : ch = c.ch ∧ v = w := by
        have := Option.some_injective _ hfu2.symm
        exact ⟨congrArg Prod.fst this, congrArg Prod.snd this⟩
      obtain ⟨hch, hv⟩ := hfu'
      subst hch
      rw [hv]
      have hsup' : ¬ ((0x8140 ≤ w && w ≤ 0x9FFC) || (0xE040 ≤ w && w ≤ 0xEBBF)) = true := hsup
      simp only [Bool.or_eq_true, Bool.and_eq_true, decide_eq_true_eq] at hsup'
      push_neg at hsup'
      rw [compressLoop]
      simp only [hcode, List.headD_cons, List.tail_cons, List.map_cons]
      rw [if_neg (by omega), if_neg (by omega)]

/-- If some character has no representation, `compressKanjiString` aborts
with the conversion-failure error. -/
theorem compressKanjiString_convFail (cs : List KChar) (h : ∃ c ∈ cs, c.sjis = none) :
    compressKanjiString cs = Except.error CompressError.convFail := by
  rw [compressKanjiString, convertToShiftJIS_none cs h]

/-- If every character is representable but some code is out of range,
`compressKanjiString` aborts naming the first such character. -/
theorem compressKanjiString_firstUnsupported (cs : List KChar)
    (hall : ∀ c ∈ cs, c.sjis.isSome) (ch v : Nat) (hfu : firstUnsupported cs = some (ch, v)) :
    compressKanjiString cs = Except.error (CompressError.unsupportedRange ch v) := by
  obtain ⟨bs, hbs⟩ := convertToShiftJIS_isSome cs hall
  rw [compressKanjiString, hbs]
  exact compressLoop_firstUnsupported cs hall bs hbs ch v hfu

/-- When every character is representable but the batch is not fully
supported, the first out-of-range character exists. -/
theorem firstUnsupported_of_not_allSupported (cs : List KChar)
    (hall : ∀ c ∈ cs, c.sjis.isSome) (h : allSupported cs = false) :
    ∃ p, firstUnsupported cs = some p := by
  induction cs with
  | nil => simp [allSupported] at h
  | cons c rest ih =>
    obtain ⟨w, hw⟩ := Option.isSome_iff_exists.mp (hall c (by simp))
    rw [firstUnsupported, hw]
    show ∃ p, (if supportedSjis w = true then firstUnsupported rest
      else some (c.ch, w)) = some p
    by_cases hsup : supportedSjis w = true
    · rw [if_pos hsup]
      apply ih (fun c' hc' => hall c' (by simp [hc']))
      simp only [allSupported, List.all_cons, Bool.and_eq_true] at h ⊢
      rw [Bool.and_eq_false_iff] at h
      rcases h with h1 | h1
      · rw [hw] at h1
        simp [hsup] at h1
      · exact h1
    · rw [if_neg hsup]
      exact ⟨(c.ch, w), rfl⟩

/-- Length of the wasm `polyDiv` output for arbitrary coefficient values. -/
theorem polyDivWasm_length (dividend divisor : List Nat) :
    (polyDivWasm dividend divisor).length = min (divisor.length - 1) dividend.length := by
  unfold polyDivWasm
  have key : ((List.range (dividend.length + 1 - divisor.length)).reverse.foldl (fun result i =>
      let coeff := result.getD (i + divisor.length - 1) 0
      if coeff = 0 then result
      else
        let logCoeff := logTable.getD coeff 0
        (List.range divisor.length).foldl (fun result j =>
          let term := gfMul (divisor.getD j 0) (expTable.getD logCoeff 0)
          result.set (i + j) ((result.getD (i + j) 0) ^^^ term)) result) dividend).length =
      dividend.length := by
    apply foldl_invariant (fun res : List Nat => res.length = dividend.length) _ _ _ rfl
    intro acc i _ hacc
    simp only
    split
    · exact hacc
    · apply foldl_invariant (fun res : List Nat => res.length = dividend.length) _ _ _ hacc
      intro acc2 j _ hacc2
      rw [List.length_set]
      exact hacc2
  rw [List.length_take, key]

/-- Length of the HTTP `polyDiv` output for arbitrary coefficient values. -/
theorem polyDivHTTP_length (dividend divisor : List Nat) :
    (polyDivHTTP dividend divisor).length = min (divisor.length - 1) dividend.length := by
  unfold polyDivHTTP
  have key : ((List.range' (divisor.length - 1) (dividend.length + 1 - divisor.length)).reverse.foldl
      (fun result i =>
      let coeff := result.getD i 0
      if coeff = 0 then result
      else
        let logCoeff := logTable.getD coeff 0
        (List.range divisor.length).foldl (fun result j =>
          let d := divisor.getD (divisor.length - 1 - j) 0
          let term := gfMul (expTable.getD ((logCoeff + 255 - logTable.getD d 0) % 255) 0) d
          result.set (i - j) ((result.getD (i - j) 0) ^^^ term)) result) dividend).length =
      dividend.length := by
    apply foldl_invariant (fun res : List Nat => res.length = dividend.length) _ _ _ rfl
    intro acc i _ hacc
    simp only
    split
    · exact hacc
    · apply foldl_invariant (fun res : List Nat => res.length = dividend.length) _ _ _ hacc
      intro acc2 j _ hacc2
      rw [List.length_set]
      exact hacc2
  rw [List.length_take, key]

/-! ### Claim C1 -/

set_option maxRecDepth 10000 in
set_option maxHeartbeats 1600000 in
/-- C1, counterexample: for the single supported character U+3000 (Shift-JIS
`0x8140`), the first 19 bytes of the emitted codeword do NOT equal the 19
data codeword bytes (the wasm pipeline emits the 7 remainder bytes first);
the claimed layout is false at this input. -/
theorem c1_counterexample :
    (processWasm [⟨0x3000, some 0x8140⟩]).map
      (fun s => decide (s.codeword.take 19 = s.dataBytes ∧ s.codeword.drop 19 = s.remainder)) =
      Except.ok false := by rfl

/-- C1, amended: for every input of 1 to 9 supported kanji characters, both
pipeline revisions produce a 26-byte codeword whose FIRST 7 bytes are the 7
remainder bytes of `polyDiv` and whose LAST 19 bytes equal the 19 data
codeword bytes in their original order (this is the byte order of the
CodewordHex/CodewordBinary output). -/
theorem c1_codeword_layout (cs : List KChar) (h1 : 1 ≤ cs.length) (h2 : cs.length ≤ 9)
    (h3 : allSupported cs = true) :
    ∃ s t, processHTTP cs = Except.ok s ∧ processWasm cs = Except.ok t ∧
      s.dataBytes.length = 19 ∧ s.remainder.length = 7 ∧
      s.codeword.length = 26 ∧ s.codeword = s.remainder ++ s.dataBytes ∧
      t.dataBytes.length = 19 ∧ t.remainder.length = 7 ∧
      t.codeword.length = 26 ∧ t.codeword = t.remainder ++ t.dataBytes := by
  obtain ⟨s, hs, _, _, hd, hr, hc⟩ := processHTTP_ok cs (by omega) h2 h3
  obtain ⟨t, ht, _, _, hd', hr', hc'⟩ := processWasm_ok cs (by omega) h2 h3
  refine ⟨s, t, hs, ht, hd, hr, ?_, hc, hd', hr', ?_, hc'⟩
  · rw [hc]
    simp [hd, hr]
  · rw [hc']
    simp [hd', hr']

/-- C1, witness: the amended layout at the concrete input U+3000. -/
theorem c1_codeword_layout_witness :
    ∃ s t, processHTTP [⟨0x3000, some 0x8140⟩] = Except.ok s ∧
      processWasm [⟨0x3000, some 0x8140⟩] = Except.ok t ∧
      s.dataBytes.length = 19 ∧ s.remainder.length = 7 ∧
      s.codeword.length = 26 ∧ s.codeword = s.remainder ++ s.dataBytes ∧
      t.dataBytes.length = 19 ∧ t.remainder.length = 7 ∧
      t.codeword.length = 26 ∧ t.codeword = t.remainder ++ t.dataBytes :=
  c1_codeword_layout [⟨0x3000, some 0x8140⟩] (by decide) (by decide) (by decide)

/-! ### Claim C2 -/

/-- C2, counterexample: on the 26-coefficient dividend `x^7` the two
`polyDiv` revisions return different remainders (`[1,1,1,1,1,1,1]` for the
HTTP revision, the low generator coefficients for the wasm revision). -/
theorem c2_counterexample :
    polyDivHTTP (List.replicate 7 0 ++ 1 :: List.replicate 18 0) (getGeneratorPolynomial 7) ≠
      polyDivWasm (List.replicate 7 0 ++ 1 :: List.replicate 18 0)
        (getGeneratorPolynomial 7) := by decide

/-- C2, amended: on every dividend of 26 coefficients both revisions return a
7-coefficient remainder, but the two revisions are NOT equivalent: there is a
26-coefficient dividend on which the remainders differ. -/
theorem c2_polyDiv_divergence :
    (∀ dividend : List Nat, dividend.length = 26 →
      (polyDivHTTP dividend (getGeneratorPolynomial 7)).length = 7 ∧
      (polyDivWasm dividend (getGeneratorPolynomial 7)).length = 7) ∧
    (∃ dividend : List Nat, dividend.length = 26 ∧
      polyDivHTTP dividend (getGeneratorPolynomial 7) ≠
        polyDivWasm dividend (getGeneratorPolynomial 7)) := by
  have hgen : (getGeneratorPolynomial 7).length = 8 := by decide
  constructor
  · intro dividend hlen
    rw [polyDivHTTP_length, polyDivWasm_length, hgen, hlen]
    omega
  · exact ⟨List.replicate 7 0 ++ 1 :: List.replicate 18 0, by decide, c2_counterexample⟩

/-! ### Claim C3 -/

set_option maxRecDepth 100000 in
set_option maxHeartbeats 1600000 in
/-- C3, evaluation: the `src/docs/main.js` revision of `getQrDataPositions`
produces 209 entries (module (8,8) is never reserved there), while the
`src/unnamed/part_000` revision produces exactly 208; in both revisions no
(row, column) coordinate repeats and every coordinate is within the 21×21
bounds. -/
theorem c3_dataPositions_eval :
    getQrDataPositionsDocs.length = 209 ∧
    getQrDataPositionsPart.length = 208 ∧
    (getQrDataPositionsDocs.map fun p => (p.r, p.c)).Nodup ∧
    (getQrDataPositionsPart.map fun p => (p.r, p.c)).Nodup ∧
    (∀ p ∈ getQrDataPositionsDocs, p.r < 21 ∧ p.c < 21) ∧
    (∀ p ∈ getQrDataPositionsPart, p.r < 21 ∧ p.c < 21) := by decide

/-! ### Claim C4 -/

set_option maxRecDepth 10000 in
set_option maxHeartbeats 1600000 in
/-- C4, evaluation: on the single supported character U+3000 (Shift-JIS
`0x8140`, a 4-byte bit stream), the HTTP revision appends `0x11` as the FIRST
pad byte (its parity test picks `0xEC` only at odd lengths), while the wasm
revision starts with `0xEC` as the spec describes; both stop at exactly 19
bytes. -/
theorem c4_padding_eval :
    (processHTTP [⟨0x3000, some 0x8140⟩]).map (fun s => s.dataBytes) =
      Except.ok [0x80, 0x10, 0x00, 0x00, 0x11, 0xEC, 0x11, 0xEC, 0x11, 0xEC, 0x11,
        0xEC, 0x11, 0xEC, 0x11, 0xEC, 0x11, 0xEC, 0x11] ∧
    (processWasm [⟨0x3000, some 0x8140⟩]).map (fun s => s.dataBytes) =
      Except.ok [0x80, 0x10, 0x00, 0x00, 0xEC, 0x11, 0xEC, 0x11, 0xEC, 0x11, 0xEC,
        0x11, 0xEC, 0x11, 0xEC, 0x11, 0xEC, 0x11, 0xEC] := by
  constructor
  · rfl
  · rfl

/-! ### Claim C5 -/

set_option maxRecDepth 100000 in
set_option maxHeartbeats 1600000 in
/-- C5, evaluation: in the `src/unnamed/part_000` revision the 15 modules of
the first format run equal the 15-bit constant and the 15 modules of the
second run bit for bit; in the `src/docs/main.js` revision the first run
covers only 14 coordinates and the two copies differ (already at their first
coordinates (8,0) and (20,8)), because the second copy is XORed with
`formatBitsMasked`. -/
theorem c5_format_copies_eval :
    (let m := placeFormatInformationPart (placeStaticPatterns emptyMatrix)
       (List.replicate 15 0)
     formatPositionsPart1.map (fun p => mcell m (p.1 : Int) (p.2 : Int)) =
       (generateFormatInformationBits 0 3).map (fun b => some (some b)) ∧
     formatPositionsPart1.map (fun p => mcell m (p.1 : Int) (p.2 : Int)) =
       formatPositionsPart2.map (fun p => mcell m (p.1 : Int) (p.2 : Int))) ∧
    formatPositionsDocs1.length = 14 ∧
    (let m := placeFormatInformationDocs (placeStaticPatterns emptyMatrix) formatInfoDocs
     mcell m 8 0 ≠ mcell m 20 8) := by decide

/-! ### Claim C6 -/

/-- C6: for every valid input of 1–9 supported characters, in both pipeline
revisions the 4-bit terminator `0000` is appended exactly when doing so keeps
the stream within 152 bits — and since a 9-character stream has 133 bits
before the terminator, the bound always holds and the terminator is always
appended. -/
theorem c6_terminator (cs : List KChar) (h1 : 1 ≤ cs.length) (h2 : cs.length ≤ 9)
    (h3 : allSupported cs = true) :
    ∃ s t, processHTTP cs = Except.ok s ∧ processWasm cs = Except.ok t ∧
      (s.terminatedBits = s.initialBits ++ [0, 0, 0, 0] ↔ s.initialBits.length + 4 ≤ 152) ∧
      (t.terminatedBits = t.initialBits ++ [0, 0, 0, 0] ↔ t.initialBits.length + 4 ≤ 152) := by
  obtain ⟨s, hs, hsi, hst, _, _, _⟩ := processHTTP_ok cs (by omega) h2 h3
  obtain ⟨t, ht, hti, htt, _, _, _⟩ := processWasm_ok cs (by omega) h2 h3
  refine ⟨s, t, hs, ht, ⟨fun _ => ?_, fun _ => hst⟩, ⟨fun _ => ?_, fun _ => htt⟩⟩
  · rw [hsi]
    omega
  · rw [hti]
    omega

/-- C6, witness: the terminator rule at the concrete input U+3000. -/
theorem c6_terminator_witness :
    ∃ s t, processHTTP [⟨0x3000, some 0x8140⟩] = Except.ok s ∧
      processWasm [⟨0x3000, some 0x8140⟩] = Except.ok t ∧
      (s.terminatedBits = s.initialBits ++ [0, 0, 0, 0] ↔ s.initialBits.length + 4 ≤ 152) ∧
      (t.terminatedBits = t.initialBits ++ [0, 0, 0, 0] ↔ t.initialBits.length + 4 ≤ 152) :=
  c6_terminator [⟨0x3000, some 0x8140⟩] (by decide) (by decide) (by decide)

/-! ### Claim C7 -/

/-- C7, counterexample: for the one-character input whose character (code
point 65) has no Shift-JIS representation, compression does NOT fail with an
unsupported-character error naming that character — it fails with the
conversion-failure error, which names no character. -/
theorem c7_counterexample :
    ¬ ∃ code, compressKanjiString [⟨65, none⟩] =
      Except.error (CompressError.unsupportedRange 65 code) := by
  rintro ⟨code, h⟩
  have he : compressKanjiString [⟨65, none⟩] = Except.error CompressError.convFail := rfl
  rw [he] at h
  simp at h

/-- C7, amended: every batch containing an offending character aborts with an
error and returns no per-character results; when every character has a 2-byte
representation the error is the unsupported-character error naming the FIRST
out-of-range character, and when some character has no representation the
error is the conversion-failure error, which names no character. -/
theorem c7_batch_abort (cs : List KChar) (h : allSupported cs = false) :
    (∃ e, compressKanjiString cs = Except.error e) ∧
    (∀ ch v, (∀ c ∈ cs, c.sjis.isSome) → firstUnsupported cs = some (ch, v) →
      compressKanjiString cs = Except.error (CompressError.unsupportedRange ch v)) ∧
    ((∃ c ∈ cs, c.sjis = none) → compressKanjiString cs = Except.error CompressError.convFail) := by
  refine ⟨?_, fun ch v hall hfu => compressKanjiString_firstUnsupported cs hall ch v hfu,
    fun hn => compressKanjiString_convFail cs hn⟩
  by_cases hn : ∃ c ∈ cs, c.sjis = none
  · exact ⟨_, compressKanjiString_convFail cs hn⟩
  · push_neg at hn
    have hall : ∀ c ∈ cs, c.sjis.isSome := by
      intro c hc
      cases hcs : c.sjis with
      | none => exact absurd hcs (hn c hc)
      | some v => rfl
    obtain ⟨⟨ch, v⟩, hfu⟩ := firstUnsupported_of_not_allSupported cs hall h
    exact ⟨_, compressKanjiString_firstUnsupported cs hall ch v hfu⟩

/-- C7, witness: the amended behaviour at the concrete unrepresentable
one-character batch. -/
theorem c7_batch_abort_witness :
    allSupported [⟨65, none⟩] = false ∧
    ((∃ e, compressKanjiString [⟨65, none⟩] = Except.error e) ∧
     (∀ ch v, (∀ c ∈ [(⟨65, none⟩ : KChar)], c.sjis.isSome) →
       firstUnsupported [⟨65, none⟩] = some (ch, v) →
       compressKanjiString [⟨65, none⟩] = Except.error (CompressError.unsupportedRange ch v)) ∧
     ((∃ c ∈ [(⟨65, none⟩ : KChar)], c.sjis = none) →
       compressKanjiString [⟨65, none⟩] = Except.error CompressError.convFail)) :=
  ⟨by decide, c7_batch_abort [⟨65, none⟩] (by decide)⟩

/-! ### Claim C8 -/

/-- C8: the standalone ECC stage validates its own input and fails with the
wrong-length error whenever the supplied data is not exactly 19 bytes. -/
theorem c8_ecc_wrong_length (dataBytes : List Nat) (h : dataBytes.length ≠ 19) :
    applyEcc dataBytes = Except.error EccError.wrongLength := by
  rw [applyEcc, if_pos h]

/-- C8, witness: an 18-byte input is rejected. -/
theorem c8_ecc_wrong_length_witness :
    (List.replicate 18 (0 : Nat)).length ≠ 19 ∧
    applyEcc (List.replicate 18 0) = Except.error EccError.wrongLength :=
  ⟨by decide, c8_ecc_wrong_length (List.replicate 18 0) (by decide)⟩

/-! ### Claim C9 -/

set_option maxRecDepth 10000 in
/-- The exp table inverts the log table on every nonzero byte value. -/
theorem gf_exp_log : ∀ v : Nat, v < 256 → 1 ≤ v →
    expTable.getD (logTable.getD v 0) 0 = v := by decide

/-- C9: after `initGF` runs, the tables satisfy `expTable[logTable[v]] == v`
for every `v` in 1..255 and `expTable[255] == 1` (the wrap-around entry forced
by convention after the generating loop). -/
theorem c9_gf_tables (v : Nat) (h1 : 1 ≤ v) (h2 : v ≤ 255) :
    (initGFTables.1).getD ((initGFTables.2).getD v 0) 0 = v ∧
    (initGFTables.1).getD 255 0 = 1 := by
  have he : initGFTables.1 = expTable := congrArg Prod.fst initGF_gives_tables
  have hl : initGFTables.2 = logTable := congrArg Prod.snd initGF_gives_tables
  rw [he, hl]
  exact ⟨gf_exp_log v (by omega) h1, rfl⟩

/-- C9, witness: the table identities at `v = 2`. -/
theorem c9_gf_tables_witness :
    (1 ≤ 2 ∧ 2 ≤ 255) ∧
    ((initGFTables.1).getD ((initGFTables.2).getD 2 0) 0 = 2 ∧
     (initGFTables.1).getD 255 0 = 1) :=
  ⟨⟨by decide, by decide⟩, c9_gf_tables 2 (by decide) (by decide)⟩

/-! ### Claim C10 -/

/-- C10: for every 2-byte code in either supported range (with its branch's
offset subtracted), the compressed value `upper*0xC0 + lower` is strictly
below 8192, and its `%013b` rendering is exactly 13 binary digits. -/
theorem c10_thirteen_bit_fit (ch code sub : Nat)
    (h : (0x8140 ≤ code ∧ code ≤ 0x9FFC ∧ sub = code - 0x8140) ∨
         (0xE040 ≤ code ∧ code ≤ 0xEBBF ∧ sub = code - 0xC140)) :
    (mkResult ch code sub).compressedValue < 8192 ∧
    (mkResult ch code sub).binary13.length = 13 := by
  have hsub : sub ≤ 0x2A7F := by
    rcases h with ⟨_, _, h3⟩ | ⟨_, _, h3⟩ <;> omega
  exact ⟨mkResult_value_lt ch code sub hsub, mkResult_binary13_length ch code sub hsub⟩

/-- C10, witness: the bound and width at the code `0x8140`. -/
theorem c10_thirteen_bit_fit_witness :
    ((0x8140 ≤ 0x8140 ∧ (0x8140 : Nat) ≤ 0x9FFC ∧ (0 : Nat) = 0x8140 - 0x8140) ∨
     (0xE040 ≤ 0x8140 ∧ (0x8140 : Nat) ≤ 0xEBBF ∧ (0 : Nat) = 0x8140 - 0xC140)) ∧
    ((mkResult 0x3000 0x8140 0).compressedValue < 8192 ∧
     (mkResult 0x3000 0x8140 0).binary13.length = 13) :=
  ⟨Or.inl ⟨by decide, by decide, by decide⟩,
   c10_thirteen_bit_fit 0x3000 0x8140 0 (Or.inl ⟨by decide, by decide, by decide⟩)⟩
